import Mathlib

/-!
# Expense Tracker (`src/script.js`): aggregation and chart projection

A shallow embedding of the transaction store, the query filter, the totals and the
chart geometry of `script.js`, and the properties of them that the specification states.

Modelling conventions.

* JavaScript numbers are exact rationals (`ℚ`); rounding of IEEE doubles is outside the model.
  `Math.PI` is a parameter `pi : ℚ` wherever the code uses it.
* JavaScript strings are `String`s; the string methods work on the list of characters.
* The module-level variable `transactions` is passed to every operation and returned by
  the operations that assign it.  `saveTransactions()` and `render()` do not change it.
* An object is the list of its own properties in creation order; a lookup `o[key]` that
  finds no own property sees the properties inherited from `Object.prototype`.
-/

namespace ExpenseTracker

/-! ## Host string methods -/

/-- The characters `String.prototype.trim` strips: ECMAScript `WhiteSpace` and
`LineTerminator` code points. -/
def isTrimChar (c : Char) : Bool :=
  let n := c.toNat
  n = 0x09 || n = 0x0A || n = 0x0B || n = 0x0C || n = 0x0D || n = 0x20 || n = 0xA0 ||
  n = 0x1680 || (0x2000 ≤ n && n ≤ 0x200A) || n = 0x2028 || n = 0x2029 || n = 0x202F ||
  n = 0x205F || n = 0x3000 || n = 0xFEFF

/-- The method `String.prototype.trim` on a list of characters. -/
def trimChars (s : List Char) : List Char :=
  ((s.dropWhile isTrimChar).reverse.dropWhile isTrimChar).reverse

/-- The method `String.prototype.trim`. -/
def trim (s : String) : String := ⟨trimChars s.toList⟩

/-- The method `String.prototype.toLowerCase`, on the ASCII letters `A`–`Z`; every other
character is left as it is. -/
def toLowerCase (s : String) : String := ⟨s.toList.map Char.toLower⟩

/-- Whether `q` is a prefix of `s`. -/
def startsWithChars : List Char → List Char → Bool
  | _, [] => true
  | [], _ :: _ => false
  | c :: s, d :: q => c == d && startsWithChars s q

/-- The method `String.prototype.includes` on lists of characters: `q` occurs in `s` at
some position. -/
def includesChars : List Char → List Char → Bool
  | [], q => q.isEmpty
  | c :: s, q => startsWithChars (c :: s) q || includesChars s q

/-- The method `String.prototype.includes`. -/
def includes (s q : String) : Bool := includesChars s.toList q.toList

/-! ## Data model -/

/-- One recorded transaction, with the fields the submit handler gives it. -/
structure Transaction where
  id : String
  title : String
  amount : ℚ
  type : String
  category : String
  date : String
deriving DecidableEq

/-- The object `getTotals` returns. -/
structure Totals where
  income : ℚ
  expense : ℚ
  balance : ℚ
deriving DecidableEq

/-! ## Store operations -/

/-- Function `addTransaction(tx)`: `transactions.unshift(tx)`. -/
def addTransaction (transactions : List Transaction) (tx : Transaction) : List Transaction :=
  tx :: transactions

/-- Function `deleteTransaction(id)`: `transactions = transactions.filter(t => t.id !== id)`. -/
def deleteTransaction (transactions : List Transaction) (id : String) : List Transaction :=
  transactions.filter (fun t => t.id != id)

/-! ## Totals and filter -/

/-- Function `getTotals(filteredTx)`: the two `filter`/`reduce` sums and their difference. -/
def getTotals (filteredTx : List Transaction) : Totals :=
  let income := (filteredTx.filter (fun t => t.type == "income")).foldl
    (fun a b => a + b.amount) 0
  let expense := (filteredTx.filter (fun t => t.type == "expense")).foldl
    (fun a b => a + b.amount) 0
  let balance := income - expense
  { income := income, expense := expense, balance := balance }

/-- Function `filterTransactions(query)`. -/
def filterTransactions (transactions : List Transaction) (query : String) :
    List Transaction :=
  let q := toLowerCase (trim query)
  if q = "" then transactions
  else transactions.filter (fun t =>
    includes (toLowerCase t.title) q ||
    includes (toLowerCase t.category) q ||
    includes (toLowerCase t.type) q)

/-- A string contains `q` as a substring: it is `a ++ q ++ b` for some `a` and `b`. -/
def Contains (s q : String) : Prop := q.toList <:+: s.toList

/-- A transaction matches the query `q` when its lower-cased title, category or type
contains `q`. -/
def Matches (q : String) (t : Transaction) : Prop :=
  Contains (toLowerCase t.title) q ∨ Contains (toLowerCase t.category) q ∨
    Contains (toLowerCase t.type) q

/-- Decision procedure for `Matches`, by search for the occurrence. -/
instance instDecidableMatches (q : String) (t : Transaction) : Decidable (Matches q t) := by
  unfold Matches Contains
  infer_instance

/-! ## Persistence: `JSON.parse` and `loadTransactions` -/

/-- A value `JSON.parse` returns.  A number is kept as its decimal literal,
`mantissa * 10 ^ exponent`. -/
inductive Json where
  | null
  | bool (b : Bool)
  | number (mantissa : ℤ) (exponent : ℤ)
  | string (s : String)
  | array (items : List Json)
  | object (members : List (String × Json))

/-- JSON insignificant whitespace. -/
def isJsonWs (c : Char) : Bool := c == ' ' || c == '\t' || c == '\n' || c == '\r'

/-- The value of a hexadecimal digit. -/
def hexVal (c : Char) : Option ℕ :=
  if c.isDigit then some (c.toNat - '0'.toNat)
  else if 'a'.toNat ≤ c.toNat ∧ c.toNat ≤ 'f'.toNat then some (c.toNat - 'a'.toNat + 10)
  else if 'A'.toNat ≤ c.toNat ∧ c.toNat ≤ 'F'.toNat then some (c.toNat - 'A'.toNat + 10)
  else none

/-- The characters of a JSON string after its opening quote, up to the closing quote:
the decoded text (reversed in `acc`) and the input left. -/
def parseStringBody : ℕ → List Char → List Char → Option (String × List Char)
  | 0, _, _ => none
  | _ + 1, _, [] => none
  | _ + 1, acc, '"' :: rest => some (⟨acc.reverse⟩, rest)
  | fuel + 1, acc, '\\' :: 'u' :: a :: b :: c :: d :: rest =>
    match hexVal a, hexVal b, hexVal c, hexVal d with
    | some x, some y, some z, some w =>
      parseStringBody fuel (Char.ofNat (((x * 16 + y) * 16 + z) * 16 + w) :: acc) rest
    | _, _, _, _ => none
  | fuel + 1, acc, '\\' :: e :: rest =>
    if e == '"' then parseStringBody fuel ('"' :: acc) rest
    else if e == '\\' then parseStringBody fuel ('\\' :: acc) rest
    else if e == '/' then parseStringBody fuel ('/' :: acc) rest
    else if e == 'b' then parseStringBody fuel (Char.ofNat 8 :: acc) rest
    else if e == 'f' then parseStringBody fuel (Char.ofNat 12 :: acc) rest
    else if e == 'n' then parseStringBody fuel ('\n' :: acc) rest
    else if e == 'r' then parseStringBody fuel ('\r' :: acc) rest
    else if e == 't' then parseStringBody fuel ('\t' :: acc) rest
    else none
  | fuel + 1, acc, c :: rest =>
    if c.toNat < 0x20 ∨ c == '\\' then none else parseStringBody fuel (c :: acc) rest

/-- The number a list of decimal digits writes. -/
def digitsVal (ds : List Char) : ℕ := ds.foldl (fun n c => n * 10 + (c.toNat - '0'.toNat)) 0

/-- A JSON number literal at the head of the input. -/
def parseNumber (cs : List Char) : Option (Json × List Char) :=
  let (neg, cs) := match cs with
    | '-' :: rest => (true, rest)
    | _ => (false, cs)
  let intDs := cs.takeWhile Char.isDigit
  let cs := cs.dropWhile Char.isDigit
  if intDs = [] ∨ (intDs.length > 1 ∧ intDs.head? = some '0') then none
  else
    let fracOk : Option (List Char × List Char) := match cs with
      | '.' :: rest =>
        let ds := rest.takeWhile Char.isDigit
        if ds = [] then none else some (ds, rest.dropWhile Char.isDigit)
      | _ => some ([], cs)
    match fracOk with
    | none => none
    | some (fracDs, cs) =>
      let expOk : Option (ℤ × List Char) := match cs with
        | e :: rest =>
          if e == 'e' || e == 'E' then
            let (eneg, rest) := match rest with
              | '-' :: r => (true, r)
              | '+' :: r => (false, r)
              | _ => (false, rest)
            let ds := rest.takeWhile Char.isDigit
            if ds = [] then none
            else some (if eneg then -(digitsVal ds : ℤ) else (digitsVal ds : ℤ),
              rest.dropWhile Char.isDigit)
          else some (0, cs)
        | [] => some (0, cs)
      match expOk with
      | none => none
      | some (e, cs) =>
        let m : ℤ := digitsVal (intDs ++ fracDs)
        some (Json.number (if neg then -m else m) (e - fracDs.length), cs)

mutual
/-- A JSON value at the head of the input (after whitespace), and the input left. -/
def parseValue : ℕ → List Char → Option (Json × List Char)
  | 0, _ => none
  | fuel + 1, cs =>
    match cs.dropWhile isJsonWs with
    | 'n' :: 'u' :: 'l' :: 'l' :: rest => some (Json.null, rest)
    | 't' :: 'r' :: 'u' :: 'e' :: rest => some (Json.bool true, rest)
    | 'f' :: 'a' :: 'l' :: 's' :: 'e' :: rest => some (Json.bool false, rest)
    | '"' :: rest =>
      match parseStringBody (rest.length + 1) [] rest with
      | some (s, rest) => some (Json.string s, rest)
      | none => none
    | '[' :: rest =>
      match rest.dropWhile isJsonWs with
      | ']' :: rest => some (Json.array [], rest)
      | _ =>
        match parseItems fuel [] rest with
        | some (items, rest) => some (Json.array items, rest)
        | none => none
    | '{' :: rest =>
      match rest.dropWhile isJsonWs with
      | '}' :: rest => some (Json.object [], rest)
      | _ =>
        match parseMembers fuel [] rest with
        | some (members, rest) => some (Json.object members, rest)
        | none => none
    | cs => parseNumber cs
/-- The items of a non-empty array, up to its closing bracket. -/
def parseItems : ℕ → List Json → List Char → Option (List Json × List Char)
  | 0, _, _ => none
  | fuel + 1, acc, cs =>
    match parseValue fuel cs with
    | none => none
    | some (v, rest) =>
      match rest.dropWhile isJsonWs with
      | ',' :: rest => parseItems fuel (v :: acc) rest
      | ']' :: rest => some ((v :: acc).reverse, rest)
      | _ => none
/-- The members of a non-empty object, up to its closing brace. -/
def parseMembers : ℕ → List (String × Json) → List Char →
    Option (List (String × Json) × List Char)
  | 0, _, _ => none
  | fuel + 1, acc, cs =>
    match cs.dropWhile isJsonWs with
    | '"' :: rest =>
      match parseStringBody (rest.length + 1) [] rest with
      | none => none
      | some (k, rest) =>
        match rest.dropWhile isJsonWs with
        | ':' :: rest =>
          match parseValue fuel rest with
          | none => none
          | some (v, rest) =>
            match rest.dropWhile isJsonWs with
            | ',' :: rest => parseMembers fuel ((k, v) :: acc) rest
            | '}' :: rest => some (((k, v) :: acc).reverse, rest)
            | _ => none
        | _ => none
    | _ => none
end

/-- The host function `JSON.parse`: the value the text writes, or a `SyntaxError`.  The
fuel is more than any text needs: a call that uses fuel has read a character. -/
def JSONparse (text : String) : Except String Json :=
  match parseValue (2 * text.length + 2) text.toList with
  | some (v, rest) =>
    if rest.dropWhile isJsonWs = [] then Except.ok v else Except.error "SyntaxError"
  | none => Except.error "SyntaxError"

/-- Function `loadTransactions()`: `raw ? JSON.parse(raw) : []`, where `raw` is what
`localStorage.getItem` gave (`none` for `null`).  No `try` surrounds the call, so an error
of `JSON.parse` is the function's outcome. -/
def loadTransactions (raw : Option String) : Except String Json :=
  match raw with
  | none => Except.ok (Json.array [])
  | some text => if text = "" then Except.ok (Json.array []) else JSONparse text

/-! ## The submit handler -/

/-- What the handler reads from the form: the field values, with `amount` already
`Number(amountEl.value)` (`none` for `NaN`; the infinities are not represented). -/
structure FormFields where
  title : String
  amount : Option ℚ
  type : String
  category : String
  date : String

/-- What a submission leaves: the message of `alert`, if it was called, and the store. -/
structure SubmitResult where
  alert : Option String
  transactions : List Transaction

/-- The test `!amount || amount <= 0` of the handler. -/
def amountRejected : Option ℚ → Bool
  | none => true
  | some a => a == 0 || decide (a ≤ 0)

/-- The `submit` listener of the form; `uid` is the value `uid()` returns. -/
def submit (transactions : List Transaction) (uid : String) (f : FormFields) :
    SubmitResult :=
  let title := trim f.title
  if title = "" ∨ amountRejected f.amount = true ∨ f.date = "" then
    { alert := some "Please enter valid transaction details.", transactions := transactions }
  else
    match f.amount with
    | none => { alert := none, transactions := transactions }
    | some amount =>
      { alert := none,
        transactions := addTransaction transactions
          { id := uid, title := title, amount := amount, type := f.type,
            category := f.category, date := f.date } }

/-! ## Category totals (`render`) -/

/-- A value of a property of the object `categoryTotals`: a number, or the string that
`+` gives when its left operand is not a number (its text is not tracked). -/
inductive JSValue where
  | number (x : ℚ)
  | string
deriving DecidableEq

/-- The properties an object literal inherits from `Object.prototype`. -/
def objectPrototypeKeys : List String :=
  ["constructor", "__defineGetter__", "__defineSetter__", "hasOwnProperty",
   "__lookupGetter__", "__lookupSetter__", "isPrototypeOf", "propertyIsEnumerable",
   "toString", "valueOf", "__proto__", "toLocaleString"]

/-- The own property `key` of an object, given as its list of own properties. -/
def ownProperty (o : List (String × JSValue)) (key : String) : Option JSValue :=
  (o.find? (fun e => e.1 == key)).map (fun e => e.2)

/-- The expression `(categoryTotals[key] || 0) + amount`: an own number is added to (an
absent property and `0` count as `0`); an own string, or the function or object the
prototype holds under `key`, is concatenated with and gives a string. -/
def addToProperty (o : List (String × JSValue)) (key : String) (amount : ℚ) : JSValue :=
  match ownProperty o key with
  | some (JSValue.number x) => JSValue.number ((if x = 0 then 0 else x) + amount)
  | some JSValue.string => JSValue.string
  | none => if key ∈ objectPrototypeKeys then JSValue.string else JSValue.number (0 + amount)

/-- The own properties after `o[key] = v`: an own property is updated in place, a new
one is added at the end. -/
def updateProperty (o : List (String × JSValue)) (key : String) (v : JSValue) :
    List (String × JSValue) :=
  match o with
  | [] => [(key, v)]
  | e :: rest => if e.1 == key then (key, v) :: rest else e :: updateProperty rest key v

/-- The assignment `o[key] = v`.  The setter of `__proto__` ignores a value that is not
an object, so that key never becomes an own property. -/
def setProperty (o : List (String × JSValue)) (key : String) (v : JSValue) :
    List (String × JSValue) :=
  if key = "__proto__" then o else updateProperty o key v

/-- The object `categoryTotals` that `render` builds. -/
def categoryTotals (transactions : List Transaction) : List (String × JSValue) :=
  (transactions.filter (fun t => t.type == "expense")).foldl
    (fun o t => setProperty o t.category (addToProperty o t.category t.amount)) []

/-- The sum of the amounts of the expenses of category `c`. -/
def expenseSum (transactions : List Transaction) (c : String) : ℚ :=
  ((transactions.filter (fun t => t.type == "expense" && t.category == c)).map
    (fun t => t.amount)).sum

/-! ## Chart projection -/

/-- The function `Math.round`: the nearest integer, a half rounded up. -/
def jsRound (x : ℚ) : ℤ := ⌊x + 1 / 2⌋

/-- One step of the sort: `e`, which stood before every entry of the sorted list, is
put before the first entry whose value is not greater. -/
def insertDesc (e : String × ℚ) : List (String × ℚ) → List (String × ℚ)
  | [] => [e]
  | b :: l => if b.2 ≤ e.2 then e :: b :: l else b :: insertDesc e l

/-- The call `.sort((a, b) => b[1] - a[1])`: the stable sort by descending value. -/
def sortDesc (l : List (String × ℚ)) : List (String × ℚ) := l.foldr insertDesc []

/-- The `entries` of `drawPieChart`, from `Object.entries(expensesByCategory)`. -/
def pieEntries (expensesByCategory : List (String × ℚ)) : List (String × ℚ) :=
  sortDesc (expensesByCategory.filter (fun e => decide (0 < e.2)))

/-- The `total` of `drawPieChart`. -/
def pieTotal (entries : List (String × ℚ)) : ℚ := entries.foldl (fun a e => a + e.2) 0

/-- One `arc` of the pie: from `start` to `start + angle`, in the palette colour `color`. -/
structure Slice where
  category : String
  color : ℕ
  start : ℚ
  angle : ℚ
deriving DecidableEq

/-- One line of the legend. -/
structure LegendEntry where
  category : String
  color : ℕ
  pct : ℤ
  value : ℚ
deriving DecidableEq

/-- The slice loop `entries.forEach(([cat, value], idx) => ...)` from index `idx` with
the running `start`: the slices drawn and the value of `start` after the loop. -/
def pieSlices (pi total : ℚ) : ℚ → ℕ → List (String × ℚ) → List Slice × ℚ
  | start, _, [] => ([], start)
  | start, idx, e :: rest =>
    let angle := e.2 / total * pi * 2
    let r := pieSlices pi total (start + angle) (idx + 1) rest
    ({ category := e.1, color := idx % 8, start := start, angle := angle } :: r.1, r.2)

/-- The legend loop over `entries.slice(0, 7)`, from index `idx`. -/
def pieLegend (total : ℚ) : ℕ → List (String × ℚ) → List LegendEntry
  | _, [] => []
  | idx, e :: rest =>
    { category := e.1, color := idx % 8, pct := jsRound (e.2 / total * 100), value := e.2 } ::
      pieLegend total (idx + 1) rest

/-- What `drawPieChart` draws. -/
structure PieChart where
  entries : List (String × ℚ)
  total : ℚ
  slices : List Slice
  finalStart : ℚ
  legend : List LegendEntry

/-- Function `drawPieChart(expensesByCategory)`, with `pi` for `Math.PI`; `none` is the
early return that writes "No expense data to show.". -/
def drawPieChart (pi : ℚ) (expensesByCategory : List (String × ℚ)) : Option PieChart :=
  let entries := pieEntries expensesByCategory
  let total := pieTotal entries
  if entries.length = 0 then none
  else
    let r := pieSlices pi total (-pi / 2) 0 entries
    some { entries := entries, total := total, slices := r.1, finalStart := r.2,
           legend := pieLegend total 0 (entries.take 7) }

/-! ## Sample data -/

/-- A transaction titled "Groceries". -/
def groceries : Transaction :=
  { id := "t1", title := "Groceries", amount := 250, type := "expense", category := "Food",
    date := "2024-01-03" }

/-- The first transaction of the specification's end-to-end example. -/
def salary : Transaction :=
  { id := "t2", title := "Salary", amount := 50000, type := "income", category := "Salary",
    date := "2024-01-01" }

/-- The second transaction of the specification's end-to-end example. -/
def rent : Transaction :=
  { id := "t3", title := "Rent", amount := 15000, type := "expense", category := "Housing",
    date := "2024-01-02" }

/-- An expense whose category is the name of an inherited property. -/
def hat : Transaction :=
  { id := "t4", title := "Hat", amount := 5, type := "expense", category := "constructor",
    date := "2024-01-04" }

/-! ## Lemmas: strings -/

theorem foldl_amount_eq (l : List Transaction) (a : ℚ) :
    l.foldl (fun a b => a + b.amount) a = a + (l.map (fun t => t.amount)).sum := by
  induction l generalizing a with
  | nil => simp
  | cons t l ih => simp [ih, add_assoc]

/-- Claim C1: `getTotals` returns as income the sum of the amounts of the transactions of
type "income", as expense the sum of the amounts of those of type "expense", and as
balance income minus expense; on the empty list all three are 0. -/
theorem getTotals_spec (tx : List Transaction) :
    (getTotals tx).income =
        ((tx.filter (fun t => decide (t.type = "income"))).map (fun t => t.amount)).sum ∧
      (getTotals tx).expense =
        ((tx.filter (fun t => decide (t.type = "expense"))).map (fun t => t.amount)).sum ∧
      (getTotals tx).balance = (getTotals tx).income - (getTotals tx).expense ∧
      getTotals [] = { income := 0, expense := 0, balance := 0 } := by
  have hbeq : ∀ k : String, (fun t : Transaction => t.type == k) =
      (fun t => decide (t.type = k)) := by
    intro k
    funext t
    rw [Bool.eq_iff_iff]
    simp
  refine ⟨?_, ?_, rfl, ?_⟩
  · simp [getTotals, foldl_amount_eq, hbeq]
  · simp [getTotals, foldl_amount_eq, hbeq]
  · simp [getTotals]

/-! ## Filter -/

/-- Claim C6: when no transaction of the store has the id, `deleteTransaction(id)` leaves
the store as it was (the same transactions in the same order, so the same length); and
for any store and id, deleting the id a second time changes nothing more. -/
theorem deleteTransaction_absent (transactions : List Transaction) (id : String)
    (h : ∀ t ∈ transactions, t.id ≠ id) :
    deleteTransaction transactions id = transactions ∧
      (deleteTransaction transactions id).length = transactions.length ∧
      ∀ (store : List Transaction) (i : String),
        deleteTransaction (deleteTransaction store i) i = deleteTransaction store i := by
  have h1 : deleteTransaction transactions id = transactions := by
    unfold deleteTransaction
    rw [List.filter_eq_self]
    intro t ht
    simpa using h t ht
  refine ⟨h1, by rw [h1], ?_⟩
  intro store i
  unfold deleteTransaction
  rw [List.filter_filter]
  simp

/-- The hypothesis of C6 discharged on a two-element store. -/
theorem deleteTransaction_absent_witness :
    deleteTransaction [salary, rent] "zz" = [salary, rent] :=
  (deleteTransaction_absent [salary, rent] "zz" (by decide)).1

/-- Claim C7: when no transaction of the store has the id of `tx`, `addTransaction(tx)`
followed by `deleteTransaction(tx.id)` gives back the store, the same transactions in the
same order.  (That the ids of the store are pairwise distinct is not needed.) -/
theorem add_then_delete (transactions : List Transaction) (tx : Transaction)
    (hfresh : ∀ t ∈ transactions, t.id ≠ tx.id) :
    deleteTransaction (addTransaction transactions tx) tx.id = transactions := by
  unfold deleteTransaction addTransaction
  rw [List.filter_cons_of_neg (by simp), List.filter_eq_self]
  intro t ht
  simpa using hfresh t ht

/-- The hypothesis of C7 discharged on a two-element store. -/
theorem add_then_delete_witness :
    deleteTransaction (addTransaction [salary, rent] groceries) groceries.id =
      [salary, rent] :=
  add_then_delete [salary, rent] groceries (by decide)

/-! ## Lemmas: the sort -/

theorem insertDesc_perm (e : String × ℚ) (l : List (String × ℚ)) :
    (insertDesc e l).Perm (e :: l) := by
  induction l with
  | nil => exact List.Perm.refl _
  | cons b l ih =>
    unfold insertDesc
    split
    · exact List.Perm.refl _
    · exact (List.Perm.cons b ih).trans (List.Perm.swap e b l)

theorem sortDesc_perm (l : List (String × ℚ)) : (sortDesc l).Perm l := by
  induction l with
  | nil => exact List.Perm.refl _
  | cons e l ih =>
    show (insertDesc e (sortDesc l)).Perm (e :: l)
    exact (insertDesc_perm e _).trans (List.Perm.cons e ih)

theorem insertDesc_pairwise (e : String × ℚ) (l : List (String × ℚ))
    (h : l.Pairwise (fun a b => b.2 ≤ a.2)) :
    (insertDesc e l).Pairwise (fun a b => b.2 ≤ a.2) := by
  induction l with
  | nil => simp [insertDesc]
  | cons b l ih =>
    unfold insertDesc
    rw [List.pairwise_cons] at h
    split
    · rename_i hbe
      refine List.Pairwise.cons ?_ (List.Pairwise.cons h.1 h.2)
      intro x hx
      rcases List.mem_cons.1 hx with rfl | hx
      · exact hbe
      · exact le_trans (h.1 x hx) hbe
    · rename_i hbe
      refine List.Pairwise.cons ?_ (ih h.2)
      intro x hx
      rcases List.mem_cons.1 ((insertDesc_perm e l).mem_iff.1 hx) with rfl | hx
      · exact le_of_lt (not_le.1 hbe)
      · exact h.1 x hx

theorem sortDesc_pairwise (l : List (String × ℚ)) :
    (sortDesc l).Pairwise (fun a b => b.2 ≤ a.2) := by
  induction l with
  | nil => exact List.Pairwise.nil
  | cons e l ih => exact insertDesc_pairwise e _ ih

theorem filter_insertDesc (v : ℚ) (e : String × ℚ) (l : List (String × ℚ)) :
    (insertDesc e l).filter (fun x => decide (x.2 = v)) =
      (e :: l).filter (fun x => decide (x.2 = v)) := by
  induction l with
  | nil => rfl
  | cons b l ih =>
    unfold insertDesc
    split
    · rfl
    · rename_i hbe
      rw [List.filter_cons, ih]
      by_cases hb : b.2 = v
      · have he : e.2 ≠ v := by
          intro he
          exact hbe (by rw [hb, he])
        simp [List.filter_cons, hb, he]
      · simp [List.filter_cons, hb]

theorem filter_sortDesc (v : ℚ) (l : List (String × ℚ)) :
    (sortDesc l).filter (fun x => decide (x.2 = v)) = l.filter (fun x => decide (x.2 = v)) := by
  induction l with
  | nil => rfl
  | cons e l ih =>
    show (insertDesc e (sortDesc l)).filter _ = _
    rw [filter_insertDesc, List.filter_cons, List.filter_cons, ih]

theorem mem_pieEntries (m : List (String × ℚ)) (e : String × ℚ) :
    e ∈ pieEntries m ↔ e ∈ m ∧ 0 < e.2 := by
  unfold pieEntries
  rw [(sortDesc_perm _).mem_iff]
  simp [List.mem_filter]

/-! ## Pie chart: the entries -/

/-- Claim C9: the entries `drawPieChart` draws from are exactly the entries of the map
whose value is greater than 0 (a rearrangement of them), in order of non-increasing value,
and entries of equal value stand in the order the map lists them. -/
theorem pieEntries_spec (m : List (String × ℚ)) :
    (pieEntries m).Perm (m.filter (fun e => decide (0 < e.2))) ∧
      (∀ e, e ∈ pieEntries m ↔ e ∈ m ∧ 0 < e.2) ∧
      (pieEntries m).Pairwise (fun a b => b.2 ≤ a.2) ∧
      (∀ v : ℚ, (pieEntries m).filter (fun e => decide (e.2 = v)) =
        (m.filter (fun e => decide (0 < e.2))).filter (fun e => decide (e.2 = v))) ∧
      (∀ (pi : ℚ) (chart : PieChart), drawPieChart pi m = some chart →
        chart.entries = pieEntries m) ∧
      pieEntries [("A", 5), ("B", 0), ("C", 10), ("D", 5), ("E", -1)] =
        [("C", 10), ("A", 5), ("D", 5)] := by
  refine ⟨sortDesc_perm _, mem_pieEntries m, sortDesc_pairwise _,
    fun v => filter_sortDesc v _, ?_, ?_⟩
  · intro pi chart h
    unfold drawPieChart at h
    simp only at h
    split at h
    · exact absurd h (by simp)
    · rw [Option.some.injEq] at h
      rw [← h]
  · norm_num [pieEntries, sortDesc, insertDesc]

/-! ## Lemmas: the slices -/

/-- Claim C4 as stated fails: `addTransaction` checks nothing and prepends a transaction
with an empty title, a negative amount and an unknown type; and the submit handler, which
does check title, amount and date, accepts a submission whose type is neither "income" nor
"expense". -/
theorem add_accepts_invalid_transaction :
    addTransaction [salary]
        { id := "t9", title := "", amount := -5, type := "gift", category := "Food",
          date := "2024-01-05" } =
      [{ id := "t9", title := "", amount := -5, type := "gift", category := "Food",
         date := "2024-01-05" }, salary] ∧
      (submit [salary] "t9"
        { title := "Lunch", amount := some 120, type := "gift", category := "Food",
          date := "2024-01-05" }).alert = none ∧
      (submit [salary] "t9"
        { title := "Lunch", amount := some 120, type := "gift", category := "Food",
          date := "2024-01-05" }).transactions =
        [{ id := "t9", title := "Lunch", amount := 120, type := "gift", category := "Food",
           date := "2024-01-05" }, salary] := by
  refine ⟨rfl, ?_, ?_⟩
  · have h : trim "Lunch" ≠ "" := by decide
    have h2 : ("2024-01-05" : String) ≠ "" := by decide
    norm_num [submit, amountRejected, h, h2]
  · have h : trim "Lunch" ≠ "" := by decide
    have h1 : trim "Lunch" = "Lunch" := by decide
    have h2 : ("2024-01-05" : String) ≠ "" := by decide
    have h3 : ("Lunch" : String) ≠ "" := by decide
    norm_num [submit, amountRejected, h2, h3, addTransaction, h1]

/-- Claim C4, amended: the submit handler rejects a submission whose trimmed title is
empty, whose amount is not a number greater than 0, or whose date is empty: it alerts and
leaves the store as it was.  Every other submission is prepended to the store with the
trimmed title and with the type as the form gave it, which is not checked. -/
theorem submit_spec (transactions : List Transaction) (uid : String) (f : FormFields) :
    ((trim f.title = "" ∨ (∀ a, f.amount = some a → a ≤ 0) ∨ f.date = "") →
        submit transactions uid f =
          { alert := some "Please enter valid transaction details.",
            transactions := transactions }) ∧
      (¬ (trim f.title = "" ∨ (∀ a, f.amount = some a → a ≤ 0) ∨ f.date = "") →
        ∃ a, f.amount = some a ∧ 0 < a ∧
          submit transactions uid f =
            { alert := none,
              transactions :=
                { id := uid, title := trim f.title, amount := a, type := f.type,
                  category := f.category, date := f.date } :: transactions }) := by
  have hrej : amountRejected f.amount = true ↔ ∀ a, f.amount = some a → a ≤ 0 := by
    cases hamt : f.amount with
    | none => simp [amountRejected]
    | some a =>
      simp only [amountRejected, Bool.or_eq_true, beq_iff_eq, decide_eq_true_eq,
        Option.some.injEq, forall_eq']
      constructor
      · rintro (h | h)
        · exact le_of_eq h
        · exact h
      · intro h
        exact Or.inr h
  constructor
  · intro h
    have h2 : trim f.title = "" ∨ amountRejected f.amount = true ∨ f.date = "" := by
      rcases h with h | h | h
      · exact Or.inl h
      · exact Or.inr (Or.inl (hrej.2 h))
      · exact Or.inr (Or.inr h)
    unfold submit
    simp only [if_pos h2]
  · intro h
    have h2 : ¬ (trim f.title = "" ∨ amountRejected f.amount = true ∨ f.date = "") := by
      intro h3
      apply h
      rcases h3 with h3 | h3 | h3
      · exact Or.inl h3
      · exact Or.inr (Or.inl (hrej.1 h3))
      · exact Or.inr (Or.inr h3)
    have h4 : ¬ ∀ a, f.amount = some a → a ≤ 0 := fun h5 => h (Or.inr (Or.inl h5))
    cases hamt : f.amount with
    | none =>
      exfalso
      apply h4
      intro a ha
      rw [hamt] at ha
      exact absurd ha (by simp)
    | some a =>
      refine ⟨a, rfl, ?_, ?_⟩
      · by_contra hle
        apply h4
        intro b hb
        rw [hamt, Option.some.injEq] at hb
        rw [← hb]
        exact not_lt.1 hle
      · unfold submit
        simp only [if_neg h2, addTransaction]
        rw [hamt]

/-- The amended C4 at a submission with a blank title and at one with a negative amount:
both are rejected and the store stays as it was. -/
theorem submit_spec_witness :
    submit [salary] "t9"
        { title := "   ", amount := some 120, type := "expense", category := "Food",
          date := "2024-01-05" } =
      { alert := some "Please enter valid transaction details.", transactions := [salary] } ∧
      submit [salary] "t9"
        { title := "Lunch", amount := some (-120), type := "expense", category := "Food",
          date := "2024-01-05" } =
      { alert := some "Please enter valid transaction details.", transactions := [salary] } :=
  ⟨(submit_spec [salary] "t9"
      { title := "   ", amount := some 120, type := "expense", category := "Food",
        date := "2024-01-05" }).1 (Or.inl (by decide)),
   (submit_spec [salary] "t9"
      { title := "Lunch", amount := some (-120), type := "expense", category := "Food",
        date := "2024-01-05" }).1
      (Or.inr (Or.inl (by
        intro a ha
        rw [Option.some.injEq] at ha
        rw [← ha]
        norm_num)))⟩

/-! ## Persistence -/

/-- Claim C5 as stated fails: on a stored text that is cut off in the middle of a record
`JSON.parse` throws a `SyntaxError`, and `loadTransactions` ends with that error instead
of returning the empty list. -/
theorem loadTransactions_corrupt_throws :
    JSONparse "[\x7b\"id\":\"t1\",\"title\":\"Rent\",\"amou" = Except.error "SyntaxError" ∧
      loadTransactions (some "[\x7b\"id\":\"t1\",\"title\":\"Rent\",\"amou") =
        Except.error "SyntaxError" := by
  constructor <;> rfl

/-- Claim C5, amended: `loadTransactions` returns the empty list when the stored value is
absent or the empty string; on any other stored text its outcome is that of `JSON.parse`:
the parsed value when the text parses, and the error of `JSON.parse` when it does not. -/
theorem loadTransactions_spec (raw : Option String) :
    (raw = none ∨ raw = some "" → loadTransactions raw = Except.ok (Json.array [])) ∧
      (∀ text, raw = some text → text ≠ "" → loadTransactions raw = JSONparse text) ∧
      (∀ text v, raw = some text → text ≠ "" → JSONparse text = Except.ok v →
        loadTransactions raw = Except.ok v) ∧
      (∀ text e, raw = some text → text ≠ "" → JSONparse text = Except.error e →
        loadTransactions raw = Except.error e) ∧
      loadTransactions (some "[\x7b\"id\":\"t3\",\"amount\":15000\x7d]") =
        Except.ok (Json.array [Json.object
          [("id", Json.string "t3"), ("amount", Json.number 15000 0)]]) := by
  have key : ∀ text, raw = some text → text ≠ "" → loadTransactions raw = JSONparse text := by
    intro text h hne
    rw [h]
    unfold loadTransactions
    simp only [if_neg hne]
  refine ⟨?_, key, ?_, ?_, rfl⟩
  · rintro (h | h) <;> rw [h] <;> rfl
  · intro text v h hne hv
    rw [key text h hne, hv]
  · intro text e h hne he
    rw [key text h hne, he]

/-- The amended C5 at an absent value and at a stored text that does not parse. -/
theorem loadTransactions_spec_witness :
    loadTransactions none = Except.ok (Json.array []) ∧
      loadTransactions (some "[1, 2") = Except.error "SyntaxError" :=
  ⟨(loadTransactions_spec none).1 (Or.inl rfl),
   (loadTransactions_spec (some "[1, 2")).2.2.2.1 "[1, 2" "SyntaxError" rfl (by decide) rfl⟩

/-! ## Category totals -/

theorem ownProperty_updateProperty (o : List (String × JSValue)) (k : String) (v : JSValue)
    (c : String) :
    ownProperty (updateProperty o k v) c = if c = k then some v else ownProperty o c := by
  induction o with
  | nil =>
    by_cases h : c = k
    · simp [updateProperty, ownProperty, h]
    · have h2 : ¬ k = c := fun e => h e.symm
      simp [updateProperty, ownProperty, h, h2]
  | cons e rest ih =>
    unfold updateProperty
    by_cases hek : e.1 = k
    · by_cases h : c = k
      · simp [ownProperty, hek, h]
      · have h2 : ¬ k = c := fun e => h e.symm
        simp [ownProperty, hek, h, h2]
    · have hek2 : (e.1 == k) = false := by simpa using hek
      simp only [hek2, Bool.false_eq_true, if_false]
      by_cases hec : e.1 = c
      · have h : ¬ c = k := fun e2 => hek (hec.trans e2)
        simp [ownProperty, hec, h]
      · have ih2 := ih
        simp only [ownProperty] at ih2 ⊢
        have hec2 : (e.1 == c) = false := by simpa using hec
        rw [List.find?_cons_of_neg _ (by simp [hec2]), List.find?_cons_of_neg _ (by simp [hec2])]
        exact ih2

theorem setProperty_of_ne (o : List (String × JSValue)) (k : String) (v : JSValue)
    (h : k ≠ "__proto__") : setProperty o k v = updateProperty o k v := by
  unfold setProperty
  rw [if_neg h]

theorem addToProperty_of_number (o : List (String × JSValue)) (k : String) (a x : ℚ)
    (h : ownProperty o k = some (JSValue.number x)) :
    addToProperty o k a = JSValue.number (x + a) := by
  unfold addToProperty
  rw [h]
  simp only
  congr 2
  split <;> simp_all

theorem addToProperty_of_none (o : List (String × JSValue)) (k : String) (a : ℚ)
    (h : ownProperty o k = none) (hk : k ∉ objectPrototypeKeys) :
    addToProperty o k a = JSValue.number a := by
  unfold addToProperty
  rw [h]
  simp only [if_neg hk, zero_add]

theorem categorySum_append (l : List Transaction) (t : Transaction) (c : String) :
    (((l ++ [t]).filter (fun x => x.category == c)).map (fun x => x.amount)).sum =
      ((l.filter (fun x => x.category == c)).map (fun x => x.amount)).sum +
        (if t.category = c then t.amount else 0) := by
  by_cases h : t.category = c
  · simp [List.filter_append, h]
  · simp [List.filter_append, h]

theorem foldl_categoryTotals (l : List Transaction)
    (hplain : ∀ t ∈ l, t.category ∉ objectPrototypeKeys) (c : String) :
    ownProperty (l.foldl
        (fun o t => setProperty o t.category (addToProperty o t.category t.amount)) []) c =
      if ∃ t ∈ l, t.category = c then
        some (JSValue.number ((((l.filter (fun x => x.category == c)).map
          (fun x => x.amount)).sum)))
      else none := by
  induction l using List.reverseRecOn generalizing c with
  | nil => simp [ownProperty]
  | append_singleton l t ih =>
    have hl : ∀ x ∈ l, x.category ∉ objectPrototypeKeys :=
      fun x hx => hplain x (List.mem_append_left _ hx)
    have ht : t.category ∉ objectPrototypeKeys :=
      hplain t (List.mem_append_right _ (List.mem_singleton_self t))
    have hproto : t.category ≠ "__proto__" := by
      intro e
      apply ht
      rw [e]
      decide
    rw [List.foldl_append, List.foldl_cons, List.foldl_nil, categorySum_append,
      setProperty_of_ne _ _ _ hproto, ownProperty_updateProperty]
    by_cases hc : c = t.category
    · subst hc
      have hex : ∃ x ∈ l ++ [t], x.category = t.category :=
        ⟨t, List.mem_append_right _ (List.mem_singleton_self t), rfl⟩
      rw [if_pos rfl, if_pos hex, if_pos rfl]
      have hown := ih hl t.category
      by_cases hprev : ∃ x ∈ l, x.category = t.category
      · rw [if_pos hprev] at hown
        rw [addToProperty_of_number _ _ _ _ hown]
      · rw [if_neg hprev] at hown
        rw [addToProperty_of_none _ _ _ hown ht]
        have hnone : l.filter (fun x => x.category == t.category) = [] := by
          rw [List.filter_eq_nil_iff]
          intro x hx hxc
          exact hprev ⟨x, hx, by simpa using hxc⟩
        rw [hnone]
        simp
    · have hc2 : ¬ t.category = c := fun e => hc e.symm
      rw [if_neg hc, ih hl, if_neg hc2, add_zero]
      have hiff : (∃ x ∈ l ++ [t], x.category = c) ↔ ∃ x ∈ l, x.category = c := by
        constructor
        · rintro ⟨x, hx, hxc⟩
          rcases List.mem_append.1 hx with hx | hx
          · exact ⟨x, hx, hxc⟩
          · rw [List.mem_singleton.1 hx] at hxc
            exact absurd hxc hc2
        · rintro ⟨x, hx, hxc⟩
          exact ⟨x, List.mem_append_left _ hx, hxc⟩
      by_cases hprev : ∃ x ∈ l, x.category = c
      · rw [if_pos hprev, if_pos (hiff.2 hprev)]
      · rw [if_neg hprev, if_neg (fun h => hprev (hiff.1 h))]

/-- The category totals of a store none of whose expenses has the name of an inherited
property as its category: the object has the property `c` exactly when some expense has
category `c`, and its value is then the sum of the amounts of those expenses.  A
transaction of another type changes nothing. -/
theorem categoryTotals_of_plain_keys (transactions : List Transaction)
    (hplain : ∀ t ∈ transactions, t.type = "expense" → t.category ∉ objectPrototypeKeys)
    (c : String) :
    ownProperty (categoryTotals transactions) c =
      if ∃ t ∈ transactions, t.type = "expense" ∧ t.category = c then
        some (JSValue.number (expenseSum transactions c))
      else none := by
  unfold categoryTotals expenseSum
  rw [foldl_categoryTotals _ (by
    intro t ht
    rw [List.mem_filter] at ht
    exact hplain t ht.1 (by simpa using ht.2))]
  have hiff : (∃ t ∈ transactions.filter (fun t => t.type == "expense"), t.category = c) ↔
      ∃ t ∈ transactions, t.type = "expense" ∧ t.category = c := by
    constructor
    · rintro ⟨t, ht, htc⟩
      rw [List.mem_filter] at ht
      exact ⟨t, ht.1, by simpa using ht.2, htc⟩
    · rintro ⟨t, ht, hte, htc⟩
      exact ⟨t, List.mem_filter.2 ⟨ht, by simpa using hte⟩, htc⟩
  have hfilter : (transactions.filter (fun t => t.type == "expense")).filter
      (fun x => x.category == c) =
      transactions.filter (fun t => t.type == "expense" && t.category == c) := by
    rw [List.filter_filter]
    congr 1
    funext t
    exact Bool.and_comm _ _
  rw [hfilter]
  by_cases h : ∃ t ∈ transactions, t.type = "expense" ∧ t.category = c
  · rw [if_pos h, if_pos (hiff.2 h)]
  · rw [if_neg h, if_neg (fun h2 => h (hiff.1 h2))]

/-- For every store, the object has a property `c` only if some expense has category `c`;
a transaction of another type adds no property. -/
theorem categoryTotals_entries_from_expenses (transactions : List Transaction) (c : String)
    (h : (ownProperty (categoryTotals transactions) c).isSome = true) :
    ∃ t ∈ transactions, t.type = "expense" ∧ t.category = c := by
  have key : ∀ l : List Transaction,
      (ownProperty (l.foldl
        (fun o t => setProperty o t.category (addToProperty o t.category t.amount)) [])
        c).isSome = true → ∃ t ∈ l, t.category = c := by
    intro l
    induction l using List.reverseRecOn with
    | nil => simp [ownProperty]
    | append_singleton l t ih =>
      rw [List.foldl_append, List.foldl_cons, List.foldl_nil]
      intro hsome
      by_cases hc : c = t.category
      · exact ⟨t, List.mem_append_right _ (List.mem_singleton_self t), hc.symm⟩
      · have hprev : (ownProperty (l.foldl
            (fun o t => setProperty o t.category (addToProperty o t.category t.amount)) [])
            c).isSome = true := by
          unfold setProperty at hsome
          split at hsome
          · exact hsome
          · rw [ownProperty_updateProperty, if_neg hc] at hsome
            exact hsome
        obtain ⟨x, hx, hxc⟩ := ih hprev
        exact ⟨x, List.mem_append_left _ hx, hxc⟩
  obtain ⟨t, ht, htc⟩ := key _ h
  rw [List.mem_filter] at ht
  exact ⟨t, ht.1, by simpa using ht.2, htc⟩

/-- Claim C3 fails in the code on an expense whose category is the name of a property
that `categoryTotals = {}` inherits from `Object.prototype`: for the category
"constructor" the lookup `categoryTotals[t.category]` finds the inherited function, so
the value stored is a string and not the sum 5 of the expense amounts; for the category
"__proto__" no entry is made at all. -/
theorem categoryTotals_inherited_key :
    hat.type = "expense" ∧ hat.category = "constructor" ∧
      expenseSum [rent, hat] "constructor" = 5 ∧
      categoryTotals [rent, hat] =
        [("Housing", JSValue.number 15000), ("constructor", JSValue.string)] ∧
      ownProperty (categoryTotals [rent, hat]) "constructor" ≠ some (JSValue.number 5) ∧
      categoryTotals [{ hat with category := "__proto__" }] = [] := by
  have h1 : categoryTotals [rent, hat] =
      [("Housing", JSValue.number 15000), ("constructor", JSValue.string)] := by
    have e1 : rent.type = "expense" := rfl
    have e2 : hat.type = "expense" := rfl
    have k1 : ("Housing" : String) ∉ objectPrototypeKeys := by decide
    have k2 : ("constructor" : String) ∈ objectPrototypeKeys := by decide
    have k3 : ("Housing" : String) ≠ "__proto__" := by decide
    have k4 : ("constructor" : String) ≠ "__proto__" := by decide
    have k5 : ("Housing" : String) ≠ "constructor" := by decide
    simp [categoryTotals, e1, e2, setProperty, addToProperty, ownProperty, updateProperty,
      rent, hat, k1, k2, k3, k4, k5]
  refine ⟨rfl, rfl, ?_, h1, ?_, ?_⟩
  · simp [expenseSum, rent, hat]
  · rw [h1]
    simp [ownProperty]
  · have k2 : ("__proto__" : String) ∈ objectPrototypeKeys := by decide
    simp [categoryTotals, setProperty, addToProperty, ownProperty, hat, k2]

/-! ## The end-to-end example of the specification -/

/-- Adding the salary and then the rent gives the totals 50000, 15000 and 35000 and the
category totals `Housing: 15000`; the pie then has one slice of sweep `2 * pi` and the
legend line says 100 percent; the query "rent" lists the rent alone. -/
theorem end_to_end_example (pi : ℚ) :
    addTransaction (addTransaction [] salary) rent = [rent, salary] ∧
      getTotals [rent, salary] = { income := 50000, expense := 15000, balance := 35000 } ∧
      categoryTotals [rent, salary] = [("Housing", JSValue.number 15000)] ∧
      (drawPieChart pi [("Housing", 15000)]).map (fun chart => chart.slices) =
        some [{ category := "Housing", color := 0, start := -pi / 2, angle := 2 * pi }] ∧
      (drawPieChart pi [("Housing", 15000)]).map (fun chart => chart.legend) =
        some [{ category := "Housing", color := 0, pct := 100, value := 15000 }] ∧
      filterTransactions [rent, salary] "rent" = [rent] := by
  refine ⟨rfl, ?_, ?_, ?_, ?_, by decide⟩
  · have e1 : rent.type = "expense" := rfl
    have e2 : salary.type = "income" := rfl
    have e3 : rent.amount = 15000 := rfl
    have e4 : salary.amount = 50000 := rfl
    have k1 : ("income" : String) ≠ "expense" := by decide
    have k2 : ("expense" : String) ≠ "income" := by decide
    simp only [getTotals, List.filter, e1, e2, beq_self_eq_true, List.foldl, e3, e4]
    norm_num [k1, k2]
  · have e1 : rent.type = "expense" := rfl
    have e2 : salary.type = "income" := rfl
    have k1 : ("income" : String) ≠ "expense" := by decide
    have k2 : ("Housing" : String) ∉ objectPrototypeKeys := by decide
    have k3 : ("Housing" : String) ≠ "__proto__" := by decide
    simp [categoryTotals, e1, e2, k1, setProperty, addToProperty, ownProperty,
      updateProperty, rent, k2, k3]
  · norm_num [drawPieChart, pieEntries, sortDesc, insertDesc, pieTotal, pieSlices]
    ring
  · norm_num [drawPieChart, pieEntries, sortDesc, insertDesc, pieTotal, pieLegend, jsRound]

end ExpenseTracker
